import Mathlib

/- Verification development for the account-summarizer repository
(src/activities.py).  Rich-text documents are modelled as character
buffers (`List Char`) with the Google-Docs 1-based indexing used by the
code: a document's first body character sits at index 1, `insertText` at
index `i` splits the buffer after `i - 1` characters, and
`deleteContentRange [s, e)` removes the characters at indices
`s, …, e - 1`.  External collaborators (the Gong platform, the
completion API, the JSON library) appear as function parameters, exactly
at the boundaries where the Python code calls them. -/

namespace ActivitiesModel

/-- Character buffer holding document text. -/
abbrev Text := List Char

/-- Number of (possibly overlapping) start positions at which `key`
occurs in `t`. -/
def countOccs (key : Text) : Text → Nat
  | [] => if key.isPrefixOf ([] : Text) then 1 else 0
  | c :: rest => (if key.isPrefixOf (c :: rest) then 1 else 0) + countOccs key rest

/-- Python's substring test `key in t`, scanning every suffix. -/
def containsSub (key : Text) : Text → Bool
  | [] => key.isPrefixOf ([] : Text)
  | c :: rest => key.isPrefixOf (c :: rest) || containsSub key rest

/-- Google-Docs `insertText` at 1-based index `idx`. -/
def insertTextAt (t : Text) (idx : Nat) (new : Text) : Text :=
  t.take (idx - 1) ++ new ++ t.drop (idx - 1)

/-- Google-Docs `deleteContentRange` over 1-based indices `[s, e)`. -/
def deleteRange (t : Text) (s e : Nat) : Text :=
  t.take (s - 1) ++ t.drop (e - 1)

/-- The idempotency key `"Call ID: <id>"` searched for by
`append_summary_to_doc` (src/activities.py line 744). -/
def callKey (call_id : Text) : Text := ("Call ID: ".data) ++ call_id

/-- Embedding of `append_summary_to_doc` (src/activities.py lines
695-764).  `docText` is the concatenation of all text runs of the
fetched document; the function checks the idempotency key against it,
and either performs no mutation (returning `False`) or inserts
`summary + "\n"` at index 1 (returning `True`). -/
def append_summary_to_doc (docText summary call_id : Text) : Text × Bool :=
  if containsSub (callKey call_id) docText then
    (docText, false)
  else
    (insertTextAt docText 1 (summary ++ ['\n']), true)

lemma isPrefixOf_nil_iff (key : Text) : key.isPrefixOf ([] : Text) = true ↔ key = [] := by
  cases key <;> simp [List.isPrefixOf]

lemma isPrefixOf_append_of_getLast (key : Text) :
    ∀ (l b : Text), l ≠ [] → l.getLast? = some '\n' → '\n' ∉ key →
      key.isPrefixOf (l ++ b) = key.isPrefixOf l := by
  intro l
  induction l generalizing key with
  | nil => intro b h; exact absurd rfl h
  | cons c l' ih =>
    intro b _ hlast hkey
    cases key with
    | nil => simp [List.isPrefixOf]
    | cons k ks =>
      simp only [List.cons_append, List.isPrefixOf, List.append_eq]
      by_cases hkc : k = c
      · subst hkc
        cases l' with
        | nil =>
          simp only [List.getLast?_singleton, Option.some.injEq] at hlast
          exact absurd (hlast ▸ List.mem_cons_self k ks) hkey
        | cons d l'' =>
          rw [List.getLast?_cons_cons] at hlast
          rw [ih ks b (by simp) hlast (fun h => hkey (List.mem_cons_of_mem k h))]
      · have : (k == c) = false := beq_false_of_ne hkc
        simp [this]

lemma countOccs_nil_of_ne (key : Text) (h : key ≠ []) : countOccs key [] = 0 := by
  simp [countOccs, isPrefixOf_nil_iff, h]

lemma countOccs_append (key : Text) (hk0 : key ≠ []) (hkey : '\n' ∉ key) :
    ∀ (l b : Text), l.getLast? = some '\n' →
      countOccs key (l ++ b) = countOccs key l + countOccs key b := by
  intro l
  induction l with
  | nil => intro b h; simp at h
  | cons c l' ih =>
    intro b hlast
    have hpf : key.isPrefixOf ((c :: l') ++ b) = key.isPrefixOf (c :: l') :=
      isPrefixOf_append_of_getLast key (c :: l') b (by simp) hlast hkey
    cases l' with
    | nil =>
      simp only [List.cons_append, List.nil_append, List.append_eq, countOccs] at hpf ⊢
      simp only [hpf]
      have h0 : (List.isPrefixOf key ([] : Text)) = false := by
        cases hx : List.isPrefixOf key ([] : Text)
        · rfl
        · exact absurd ((isPrefixOf_nil_iff key).mp hx) hk0
      simp [h0]
    | cons d l'' =>
      rw [List.getLast?_cons_cons] at hlast
      have hrec := ih b hlast
      simp only [List.cons_append, List.append_eq, countOccs] at hpf hrec ⊢
      simp only [hpf, hrec]
      omega

lemma containsSub_iff_countOccs (key t : Text) :
    containsSub key t = true ↔ countOccs key t ≠ 0 := by
  induction t with
  | nil => simp [containsSub, countOccs]
  | cons c rest ih =>
    simp only [containsSub, countOccs, Bool.or_eq_true, ih]
    by_cases h : key.isPrefixOf (c :: rest) = true
    · simp [h]
    · simp [h]

lemma callKey_ne_nil (call_id : Text) : callKey call_id ≠ [] := by
  simp [callKey, String.data]

lemma newline_not_mem_callKey (call_id : Text) (h : '\n' ∉ call_id) :
    '\n' ∉ callKey call_id := by
  intro hmem
  rcases List.mem_append.mp hmem with h1 | h2
  · revert h1; decide
  · exact h h2

/-- C1.  Idempotent insert: if `Call ID: <id>` already occurs in the
concatenated document text, `append_summary_to_doc` performs no mutation
and returns `False`; otherwise it inserts `summary + "\n"` at offset 1
and returns `True`.  Consequently, starting from a document without the
key and a summary block carrying the key exactly once, two sequential
invocations with the same id leave exactly one occurrence of
`Call ID: <id>` in the document: the first inserts, the second is a
no-op. -/
theorem append_summary_idempotent_insert :
    (∀ docText summary call_id : Text,
        containsSub (callKey call_id) docText = true →
        append_summary_to_doc docText summary call_id = (docText, false))
    ∧ (∀ docText summary call_id : Text,
        containsSub (callKey call_id) docText = false →
        append_summary_to_doc docText summary call_id
          = ((summary ++ ['\n']) ++ docText, true))
    ∧ (∀ docText summary call_id : Text,
        '\n' ∉ call_id →
        countOccs (callKey call_id) (summary ++ ['\n']) = 1 →
        countOccs (callKey call_id) docText = 0 →
        (append_summary_to_doc docText summary call_id).2 = true
        ∧ append_summary_to_doc (append_summary_to_doc docText summary call_id).1
            summary call_id
          = ((append_summary_to_doc docText summary call_id).1, false)
        ∧ countOccs (callKey call_id)
            (append_summary_to_doc docText summary call_id).1 = 1) := by
  refine ⟨?_, ?_, ?_⟩
  · intro docText summary call_id h
    simp [append_summary_to_doc, h]
  · intro docText summary call_id h
    simp [append_summary_to_doc, h, insertTextAt]
  · intro docText summary call_id hnl hsum hdoc
    have hnotin : containsSub (callKey call_id) docText = false := by
      by_contra hc
      have : containsSub (callKey call_id) docText = true := by
        cases h : containsSub (callKey call_id) docText
        · exact absurd h hc
        · rfl
      exact (containsSub_iff_countOccs _ _).mp this hdoc
    have h1 : append_summary_to_doc docText summary call_id
        = ((summary ++ ['\n']) ++ docText, true) := by
      simp [append_summary_to_doc, hnotin, insertTextAt]
    have hlast : (summary ++ ['\n']).getLast? = some '\n' := by
      simp
    have hcount : countOccs (callKey call_id) ((summary ++ ['\n']) ++ docText) = 1 := by
      rw [countOccs_append (callKey call_id) (callKey_ne_nil call_id)
        (newline_not_mem_callKey call_id hnl) (summary ++ ['\n']) docText hlast,
        hsum, hdoc]
    have hin2 : containsSub (callKey call_id) ((summary ++ ['\n']) ++ docText) = true := by
      rw [containsSub_iff_countOccs, hcount]
      omega
    refine ⟨by rw [h1], ?_, by rw [h1]; exact hcount⟩
    rw [h1]
    rw [List.append_assoc] at hin2
    simp only [List.singleton_append] at hin2
    simp [append_summary_to_doc, hin2]

/-- Witness for C1 at a concrete document, summary and call id. -/
theorem append_summary_idempotent_insert_witness :
    (append_summary_to_doc [] ("Call ID: X".data) (['X'])).2 = true
    ∧ append_summary_to_doc
        (append_summary_to_doc [] ("Call ID: X".data) (['X'])).1
        ("Call ID: X".data) (['X'])
      = ((append_summary_to_doc [] ("Call ID: X".data) (['X'])).1, false)
    ∧ countOccs (callKey ['X'])
        (append_summary_to_doc [] ("Call ID: X".data) (['X'])).1 = 1 :=
  append_summary_idempotent_insert.2.2 [] ("Call ID: X".data) ['X']
    (by decide) (by decide) (by decide)

/- Time-windowed discovery and the LLM classifier
(src/activities.py lines 55-294).  A Gong call is reduced to the two
fields the embedded logic reads: the call id and the numeric
`metaData.started` sort key. -/

/-- A Gong call record as consumed by the discovery logic. -/
structure GCall where
  id : Text
  started : Int
  deriving DecidableEq, Repr

/-- Python `str.strip()` over the whitespace characters. -/
def pyStrip (s : Text) : Text :=
  ((s.dropWhile Char.isWhitespace).reverse.dropWhile Char.isWhitespace).reverse

/-- Python `str.split(",")`: cut at every comma, keeping empty pieces. -/
def splitCommaAux : Text → Text → List Text
  | [], acc => [acc.reverse]
  | c :: rest, acc =>
      if c = ',' then acc.reverse :: splitCommaAux rest []
      else splitCommaAux rest (c :: acc)

/-- Python `str.split(",")`. -/
def splitComma (s : Text) : List Text := splitCommaAux s []

/-- Value of a non-empty all-digit string, `none` otherwise. -/
def digitsVal? (ds : Text) : Option Nat :=
  if ds ≠ [] ∧ ds.all Char.isDigit then
    some (ds.foldl (fun n c => n * 10 + (c.toNat - '0'.toNat)) 0)
  else none

/-- Python `int(s)` on a decimal literal: surrounding whitespace is
tolerated, an optional sign precedes the digits, anything else raises
`ValueError` (modelled as `none`). -/
def pyInt? (s : Text) : Option Int :=
  match pyStrip s with
  | '+' :: ds => (digitsVal? ds).map Int.ofNat
  | '-' :: ds => (digitsVal? ds).map (fun n => -(Int.ofNat n))
  | ds => (digitsVal? ds).map Int.ofNat

/-- `[int(x.strip()) for x in pieces]`, failing as a whole when any
piece fails to parse (the `ValueError` caught at
src/activities.py line 134). -/
def parseIndices : List Text → Option (List Int)
  | [] => some []
  | x :: xs =>
      match pyInt? x with
      | none => none
      | some i => (parseIndices xs).map (fun l => i :: l)

/-- Embedding of `filter_calls_with_llm` (src/activities.py lines
55-137).  `response_text` is the completion API's reply
(`response.content[0].text`); the prompt-building part of the function
only feeds that external call and has no other effect.  An empty input
list returns immediately; a stripped reply of `"NONE"` or `""` yields no
matches; a parseable comma-separated index list selects the in-range
indices; an unparseable reply falls back to the whole input list. -/
def filter_calls_with_llm (calls : List GCall) (response_text : Text) : List GCall :=
  if calls = [] then []
  else if pyStrip response_text = "NONE".data ∨ pyStrip response_text = [] then []
  else
    match parseIndices (splitComma (pyStrip response_text)) with
    | some idxs =>
        idxs.filterMap (fun i =>
          if h : 0 ≤ i ∧ i < (calls.length : Int) then
            some (calls.get ⟨i.toNat, by omega⟩)
          else none)
    | none => calls

/-- Concrete call used in counterexamples and witnesses. -/
def gcallA : GCall := ⟨"a1".data, 0⟩

/-- C8 counterexample: with the non-empty window `[gcallA]` and the
empty classification response, `filter_calls_with_llm` returns no
matches instead of failing open to all calls, refuting the claim that
every empty-or-unparseable response yields the whole window. -/
theorem filter_empty_response_counterexample :
    filter_calls_with_llm [gcallA] [] = []
    ∧ filter_calls_with_llm [gcallA] [] ≠ [gcallA] := by
  constructor
  · decide
  · decide

/-- C8 amended: a stripped response that is neither `"NONE"` nor empty
but cannot be parsed as a comma-separated integer list makes
`filter_calls_with_llm` fail open, returning all calls of the window
unchanged; the empty response instead returns no matches. -/
theorem filter_unparseable_fails_open (calls : List GCall) (resp : Text)
    (h1 : pyStrip resp ≠ "NONE".data) (h2 : pyStrip resp ≠ [])
    (h3 : parseIndices (splitComma (pyStrip resp)) = none)
    (h4 : calls ≠ []) :
    filter_calls_with_llm calls resp = calls := by
  unfold filter_calls_with_llm
  rw [if_neg h4, if_neg (not_or.mpr ⟨h1, h2⟩), h3]

/-- Witness for the amended C8 at a concrete window and response. -/
theorem filter_unparseable_fails_open_witness :
    filter_calls_with_llm [gcallA] ("abc".data) = [gcallA] :=
  filter_unparseable_fails_open [gcallA] ("abc".data)
    (by decide) (by decide) (by decide) (by decide)

/-- Concrete call used in the C10 witness. -/
def gcallB : GCall := ⟨"b2".data, 5⟩

/-- C10.  The classifier output is a guarded sublist of its input: for
every call list and every response text each returned call is an element
of the input list (out-of-range indices are silently dropped by the
bounds guard, and every fallback path returns either `[]` or the input
itself), and the empty input list yields the empty result for every
response (the function returns before consulting the completion API). -/
theorem filter_guarded_sublist (calls : List GCall) (resp : Text) :
    (∀ x ∈ filter_calls_with_llm calls resp, x ∈ calls)
    ∧ filter_calls_with_llm [] resp = [] := by
  constructor
  · intro x hx
    unfold filter_calls_with_llm at hx
    by_cases hc : calls = []
    · rw [if_pos hc] at hx
      exact absurd hx (List.not_mem_nil x)
    · rw [if_neg hc] at hx
      by_cases hr : pyStrip resp = "NONE".data ∨ pyStrip resp = []
      · rw [if_pos hr] at hx
        exact absurd hx (List.not_mem_nil x)
      · rw [if_neg hr] at hx
        cases hp : parseIndices (splitComma (pyStrip resp)) with
        | none =>
          rw [hp] at hx
          exact hx
        | some idxs =>
          rw [hp] at hx
          rcases List.mem_filterMap.mp hx with ⟨i, _, hi⟩
          by_cases hb : 0 ≤ i ∧ i < (calls.length : Int)
          · rw [dif_pos hb] at hi
            cases hi
            exact List.get_mem calls i.toNat (by omega)
          · rw [dif_neg hb] at hi
            cases hi
  · rfl

/-- Witness for C10: a concrete in-range selection is a member of the
input list, and the empty input yields the empty output. -/
theorem filter_guarded_sublist_witness :
    gcallB ∈ [gcallB] ∧ filter_calls_with_llm [] ("7".data) = [] :=
  ⟨(filter_guarded_sublist [gcallB] ("0".data)).1 gcallB (by decide),
   (filter_guarded_sublist [gcallB] ("7".data)).2⟩

/- A stable insertion sort standing in for Python's stable `list.sort`:
a stable sort's output is determined by sortedness plus stability, so
any stable implementation is extensionally the one the code runs. -/

/-- Insert `x` in front of the first element `y` with `le x y`. -/
def insIns (le : α → α → Bool) (x : α) : List α → List α
  | [] => [x]
  | y :: ys => if le x y then x :: y :: ys else y :: insIns le x ys

/-- Stable insertion sort by `le`. -/
def insSort (le : α → α → Bool) : List α → List α
  | [] => []
  | x :: xs => insIns le x (insSort le xs)

lemma insIns_perm (le : α → α → Bool) (x : α) :
    ∀ l : List α, (insIns le x l).Perm (x :: l) := by
  intro l
  induction l with
  | nil => simp [insIns]
  | cons y ys ih =>
    simp only [insIns]
    by_cases h : le x y = true
    · rw [if_pos h]
    · rw [if_neg h]
      exact (ih.cons y).trans (List.Perm.swap x y ys)

lemma insSort_perm (le : α → α → Bool) :
    ∀ l : List α, (insSort le l).Perm l := by
  intro l
  induction l with
  | nil => simp [insSort]
  | cons x xs ih =>
    exact (insIns_perm le x (insSort le xs)).trans (ih.cons x)

lemma mem_insIns (le : α → α → Bool) (x z : α) (l : List α) :
    z ∈ insIns le x l ↔ z = x ∨ z ∈ l := by
  rw [(insIns_perm le x l).mem_iff]
  simp

lemma insIns_pairwise (le : α → α → Bool)
    (htr : ∀ a b c, le a b = true → le b c = true → le a c = true)
    (hto : ∀ a b, le a b = true ∨ le b a = true) (x : α) :
    ∀ l : List α, List.Pairwise (fun a b => le a b = true) l →
      List.Pairwise (fun a b => le a b = true) (insIns le x l) := by
  intro l
  induction l with
  | nil => intro _; simp [insIns]
  | cons y ys ih =>
    intro h
    rcases List.pairwise_cons.mp h with ⟨hy, hys⟩
    simp only [insIns]
    by_cases hxy : le x y = true
    · rw [if_pos hxy]
      refine List.pairwise_cons.mpr ⟨?_, h⟩
      intro z hz
      rcases List.mem_cons.mp hz with rfl | hz'
      · exact hxy
      · exact htr x y z hxy (hy z hz')
    · rw [if_neg hxy]
      refine List.pairwise_cons.mpr ⟨?_, ih hys⟩
      intro z hz
      rcases (mem_insIns le x z ys).mp hz with rfl | hz'
      · rcases hto z y with h1 | h1
        · exact absurd h1 hxy
        · exact h1
      · exact hy z hz'

lemma insSort_pairwise (le : α → α → Bool)
    (htr : ∀ a b c, le a b = true → le b c = true → le a c = true)
    (hto : ∀ a b, le a b = true ∨ le b a = true) :
    ∀ l : List α, List.Pairwise (fun a b => le a b = true) (insSort le l) := by
  intro l
  induction l with
  | nil => simp [insSort]
  | cons x xs ih => exact insIns_pairwise le htr hto x (insSort le xs) ih

/- The discovery loop of `fetch_all_call_ids` (src/activities.py lines
172-294).  Credentials and HTTP headers are configuration; the inner
pagination loop drains the external platform and is abstracted as
`wc w`, the complete list of calls of window `w`; `resp w` is the
classifier's response text for that window.  The loop walks
`months_back` over `range(24)`, counts consecutive windows with zero
matches (threshold `max_consecutive_empty = 6`), and also stops once the
accumulated matches reach `max_calls`. -/

/-- One run of the 24-window loop.  `r` is the number of loop
iterations still available, `mb` the current `months_back`, `matching`
the accumulated matches, `consec` the consecutive-empty-window counter.
Returns the accumulated matches and the number of windows scanned. -/
def discoverGo (wc : Nat → List GCall) (resp : Nat → Text) (maxCalls : Nat) :
    Nat → Nat → List GCall → Nat → List GCall × Nat
  | 0, mb, matching, _ => (matching, mb)
  | r + 1, mb, matching, consec =>
    if (filter_calls_with_llm (wc mb) (resp mb)).length = 0 then
      if 6 ≤ consec + 1 then
        (matching ++ filter_calls_with_llm (wc mb) (resp mb), mb + 1)
      else if maxCalls ≤ (matching ++ filter_calls_with_llm (wc mb) (resp mb)).length then
        (matching ++ filter_calls_with_llm (wc mb) (resp mb), mb + 1)
      else
        discoverGo wc resp maxCalls r (mb + 1)
          (matching ++ filter_calls_with_llm (wc mb) (resp mb)) (consec + 1)
    else if maxCalls ≤ (matching ++ filter_calls_with_llm (wc mb) (resp mb)).length then
      (matching ++ filter_calls_with_llm (wc mb) (resp mb), mb + 1)
    else
      discoverGo wc resp maxCalls r (mb + 1)
        (matching ++ filter_calls_with_llm (wc mb) (resp mb)) 0

/-- The whole windowed scan: 24 windows, starting with empty
accumulator and zero counter. -/
def discover (wc : Nat → List GCall) (resp : Nat → Text) (maxCalls : Nat) :
    List GCall × Nat :=
  discoverGo wc resp maxCalls 24 0 [] 0

/-- Descending order on `metaData.started` (the `reverse=True` sort key
of src/activities.py lines 276-279). -/
def startedDesc (a b : GCall) : Bool := decide (b.started ≤ a.started)

/-- Embedding of the completion phase of `fetch_all_call_ids`
(src/activities.py lines 275-294): sort all matches newest-first, map
the first `max_calls` to their ids, and return the pre-truncation total
count alongside. -/
def fetch_all_call_ids (wc : Nat → List GCall) (resp : Nat → Text) (maxCalls : Nat) :
    List Text × Nat :=
  (((insSort startedDesc (discover wc resp maxCalls).1).take maxCalls).map GCall.id,
    (discover wc resp maxCalls).1.length)

lemma discoverGo_succ (wc : Nat → List GCall) (resp : Nat → Text)
    (maxCalls r mb : Nat) (matching : List GCall) (consec : Nat) :
    discoverGo wc resp maxCalls (r + 1) mb matching consec =
      if (filter_calls_with_llm (wc mb) (resp mb)).length = 0 then
        if 6 ≤ consec + 1 then
          (matching ++ filter_calls_with_llm (wc mb) (resp mb), mb + 1)
        else if maxCalls ≤ (matching ++ filter_calls_with_llm (wc mb) (resp mb)).length then
          (matching ++ filter_calls_with_llm (wc mb) (resp mb), mb + 1)
        else
          discoverGo wc resp maxCalls r (mb + 1)
            (matching ++ filter_calls_with_llm (wc mb) (resp mb)) (consec + 1)
      else if maxCalls ≤ (matching ++ filter_calls_with_llm (wc mb) (resp mb)).length then
        (matching ++ filter_calls_with_llm (wc mb) (resp mb), mb + 1)
      else
        discoverGo wc resp maxCalls r (mb + 1)
          (matching ++ filter_calls_with_llm (wc mb) (resp mb)) 0 := rfl

lemma filter_nil_calls (r : Text) : filter_calls_with_llm [] r = [] := rfl

lemma filter_singleton_zero (c : GCall) :
    filter_calls_with_llm [c] ("0".data) = [c] := rfl

lemma discoverGo_empty_stop (wc : Nat → List GCall) (resp : Nat → Text) (maxCalls : Nat) :
    ∀ (r mb : Nat) (matching : List GCall) (consec : Nat),
      (∀ w, mb ≤ w → filter_calls_with_llm (wc w) (resp w) = []) →
      matching.length < maxCalls → consec < 6 → 6 ≤ r + consec →
      discoverGo wc resp maxCalls r mb matching consec = (matching, mb + (6 - consec)) := by
  intro r
  induction r with
  | zero => intro mb matching consec _ _ h6 h7; omega
  | succ r ih =>
    intro mb matching consec hw hlen h6 h7
    have hf : filter_calls_with_llm (wc mb) (resp mb) = [] := hw mb (le_refl mb)
    rw [discoverGo_succ, hf]
    simp only [List.append_nil, List.length_nil]
    rw [if_pos trivial]
    by_cases h5 : 6 ≤ consec + 1
    · rw [if_pos h5]
      have hc : consec = 5 := by omega
      subst hc
      rfl
    · rw [if_neg h5, if_neg (by omega : ¬ maxCalls ≤ matching.length)]
      rw [ih (mb + 1) matching (consec + 1) (fun w hw' => hw w (by omega)) hlen
        (by omega) (by omega)]
      have harith : mb + 1 + (6 - (consec + 1)) = mb + (6 - consec) := by omega
      rw [harith]

/-- C6.  Early stop on dormancy: the scan counts consecutive windows
with zero matches and stops as soon as the counter reaches 6.  For a
platform returning no calls in any window the scan stops after exactly 6
windows (not 24) with no matches; and the counter is reset by a window
with a match, so a single match in window 0 followed by silence stops
the scan after exactly 7 windows. -/
theorem discovery_early_stop_on_dormancy :
    (∀ (wc : Nat → List GCall) (resp : Nat → Text) (maxCalls : Nat),
        0 < maxCalls → (∀ w, wc w = []) →
        (discover wc resp maxCalls).2 = 6 ∧ (discover wc resp maxCalls).1 = [])
    ∧ (∀ (c : GCall) (wc : Nat → List GCall) (resp : Nat → Text) (maxCalls : Nat),
        wc 0 = [c] → (∀ w, w ≠ 0 → wc w = []) → resp 0 = "0".data → 1 < maxCalls →
        (discover wc resp maxCalls).2 = 7) := by
  constructor
  · intro wc resp maxCalls hmax hempty
    have hstop := discoverGo_empty_stop wc resp maxCalls 24 0 [] 0
      (fun w _ => by rw [hempty w]; exact filter_nil_calls (resp w))
      (by simpa using hmax) (by omega) (by omega)
    simp only [discover]
    rw [hstop]
    exact ⟨rfl, rfl⟩
  · intro c wc resp maxCalls h0 hz hr0 hmax
    have hf0 : filter_calls_with_llm (wc 0) (resp 0) = [c] := by
      rw [h0, hr0]
      exact filter_singleton_zero c
    simp only [discover]
    rw [show (24 : Nat) = 23 + 1 from rfl, discoverGo_succ, hf0]
    simp only [List.nil_append]
    rw [if_neg (by simp), if_neg (by simp only [List.length_singleton]; omega)]
    have hstop := discoverGo_empty_stop wc resp maxCalls 23 1 [c] 0
      (fun w hw' => by rw [hz w (by omega)]; exact filter_nil_calls (resp w))
      (by simpa using hmax) (by omega) (by omega)
    rw [hstop]

/-- Window and response functions for the C6 witness. -/
def wc6W : Nat → List GCall := fun w => if w = 0 then [gcallA] else []

/-- Response function for the C6 witness. -/
def resp6W : Nat → Text := fun w => if w = 0 then "0".data else []

/-- Witness for C6 at concrete platforms: an all-empty platform stops
after 6 windows; a single match in window 0 stops after 7. -/
theorem discovery_early_stop_witness :
    (discover (fun _ => []) (fun _ => []) 3).2 = 6
    ∧ (discover wc6W resp6W 2).2 = 7 :=
  ⟨(discovery_early_stop_on_dormancy.1 (fun _ => []) (fun _ => []) 3
      (by decide) (fun _ => rfl)).1,
   discovery_early_stop_on_dormancy.2 gcallA wc6W resp6W 2 rfl
      (fun w hw => by simp [wc6W, hw]) rfl (by decide)⟩

/-- C7.  Discovery result shape: on completion the matches are sorted
by scheduled time descending, the id list is truncated to `max_calls`,
and the returned total is the pre-truncation match count; whenever the
matches exceed `max_calls` the id list has length exactly `max_calls`,
lists the ids of the newest-first sorted prefix, and the total exceeds
`max_calls`. -/
theorem discovery_result_shape (wc : Nat → List GCall) (resp : Nat → Text)
    (maxCalls : Nat)
    (h : maxCalls < (discover wc resp maxCalls).1.length) :
    (fetch_all_call_ids wc resp maxCalls).1.length = maxCalls
    ∧ (fetch_all_call_ids wc resp maxCalls).2 = (discover wc resp maxCalls).1.length
    ∧ maxCalls < (fetch_all_call_ids wc resp maxCalls).2
    ∧ (fetch_all_call_ids wc resp maxCalls).1
        = ((insSort startedDesc (discover wc resp maxCalls).1).take maxCalls).map GCall.id
    ∧ List.Pairwise (fun a b => b.started ≤ a.started)
        ((insSort startedDesc (discover wc resp maxCalls).1).take maxCalls) := by
  have hlen : (insSort startedDesc (discover wc resp maxCalls).1).length
      = (discover wc resp maxCalls).1.length :=
    (insSort_perm startedDesc (discover wc resp maxCalls).1).length_eq
  refine ⟨?_, rfl, h, rfl, ?_⟩
  · rw [fetch_all_call_ids]
    simp only [List.length_map, List.length_take, hlen]
    omega
  · have hsorted := insSort_pairwise startedDesc
      (fun a b c hab hbc => by
        simp only [startedDesc, decide_eq_true_eq] at hab hbc ⊢
        exact le_trans hbc hab)
      (fun a b => by
        simp only [startedDesc, decide_eq_true_eq]
        exact Int.le_total b.started a.started)
      (discover wc resp maxCalls).1
    have htake := hsorted.sublist
      (List.take_sublist maxCalls (insSort startedDesc (discover wc resp maxCalls).1))
    exact htake.imp (fun hab => by simpa [startedDesc] using hab)

/-- Window function for the C7 witness. -/
def wc7W : Nat → List GCall := fun w => if w = 0 then [gcallA, gcallB] else []

/-- Response function for the C7 witness. -/
def resp7W : Nat → Text := fun _ => "0,1".data

/-- Witness for C7: two matches in window 0 with `max_calls = 1` give
an id list of length exactly 1 and a total of 2. -/
theorem discovery_result_shape_witness :
    (fetch_all_call_ids wc7W resp7W 1).1.length = 1
    ∧ 1 < (fetch_all_call_ids wc7W resp7W 1).2 :=
  ⟨(discovery_result_shape wc7W resp7W 1 (by decide)).1,
   (discovery_result_shape wc7W resp7W 1 (by decide)).2.2.1⟩

/- Reading and normalizing the summaries document
(src/activities.py lines 767-837).  The Python code runs
`re.finditer` with the DOTALL pattern
`(=== CALL SUMMARY: (\d{4}-\d{2}-\d{2}) - .+?===.*?===)` over the
concatenated document text, sorts the matches by their captured date
string, and joins them with newlines.  The matcher below reproduces the
leftmost, lazy match semantics of exactly this pattern: after the
literal header, the date shape and the literal " - ", the lazy `.+?===`
stops at the first `===` at least one character further on, and the
lazy `.*?===` stops at the first `===` after that. -/

/-- Python string comparison (lexicographic on characters), as used by
`summaries.sort(key=lambda x: x[0])` on the date strings. -/
def strLe : Text → Text → Bool
  | [], _ => true
  | _ :: _, [] => false
  | a :: as, b :: bs => if a < b then true else if a = b then strLe as bs else false

lemma strLe_trans : ∀ a b c : Text, strLe a b = true → strLe b c = true → strLe a c = true := by
  intro a
  induction a with
  | nil => intro b c _ _; rfl
  | cons x xs ih =>
    intro b c hab hbc
    cases b with
    | nil => simp [strLe] at hab
    | cons y ys =>
      cases c with
      | nil => simp [strLe] at hbc
      | cons z zs =>
        simp only [strLe] at hab hbc ⊢
        by_cases hxy : x < y
        · by_cases hyz : y < z
          · rw [if_pos (lt_trans hxy hyz)]
          · by_cases hyz2 : y = z
            · subst hyz2; rw [if_pos hxy]
            · rw [if_neg hyz, if_neg hyz2] at hbc
              exact absurd hbc (by simp)
        · by_cases hxy2 : x = y
          · subst hxy2
            rw [if_neg hxy, if_pos rfl] at hab
            by_cases hxz : x < z
            · rw [if_pos hxz]
            · by_cases hxz2 : x = z
              · subst hxz2
                rw [if_neg hxz, if_pos rfl] at hbc ⊢
                exact ih ys zs hab hbc
              · rw [if_neg hxz, if_neg hxz2] at hbc
                exact absurd hbc (by simp)
          · rw [if_neg hxy, if_neg hxy2] at hab
            exact absurd hab (by simp)

lemma strLe_total : ∀ a b : Text, strLe a b = true ∨ strLe b a = true := by
  intro a
  induction a with
  | nil => intro b; left; rfl
  | cons x xs ih =>
    intro b
    cases b with
    | nil => right; rfl
    | cons y ys =>
      simp only [strLe]
      rcases lt_trichotomy x y with h | h | h
      · left; rw [if_pos h]
      · subst h
        rcases ih ys with h2 | h2
        · left; simp [lt_self_iff_false, h2]
        · right; simp [lt_self_iff_false, h2]
      · right; rw [if_pos h]

/-- The literal header of the summary-block pattern. -/
def headerLit : Text := "=== CALL SUMMARY: ".data

/-- Does the text start with the literal `===`? -/
def tripleEq (s : Text) : Bool :=
  match s with
  | '=' :: '=' :: '=' :: _ => true
  | _ => false

/-- First index at which `===` starts, if any. -/
def findTriple : Text → Option Nat
  | [] => none
  | c :: rest => if tripleEq (c :: rest) then some 0 else (findTriple rest).map (· + 1)

/-- The `\d{4}-\d{2}-\d{2}` date shape. -/
def dateOk (l : Text) : Bool :=
  match l with
  | [a, b, c, d, e, f, g, h, i, j] =>
      a.isDigit && b.isDigit && c.isDigit && d.isDigit && e == '-'
        && f.isDigit && g.isDigit && h == '-' && i.isDigit && j.isDigit
  | _ => false

/-- Attempt the summary-block pattern at the head of `s`; on success
return the match length and the captured date (the 10 characters after
the 18-character header).  The lazy body needs a first `===` starting
at offset at least 32 (`.+?` consumes at least one character after the
31 header+date+separator characters) and a second `===` starting at
least 3 positions after the first. -/
def matchAt (s : Text) : Option (Nat × Text) :=
  if headerLit.isPrefixOf s && dateOk ((s.drop 18).take 10)
      && (" - ".data).isPrefixOf (s.drop 28) then
    match findTriple (s.drop 32) with
    | none => none
    | some k =>
      match findTriple (s.drop (35 + k)) with
      | none => none
      | some j => some (38 + k + j, (s.drop 18).take 10)
  else none

/-- `re.finditer` scan: try the pattern at every position left to
right, emitting `(date, match_text)` and resuming after each match. -/
def extractAux : Nat → Text → List (Text × Text)
  | 0, _ => []
  | _ + 1, [] => []
  | fuel + 1, c :: rest =>
    match matchAt (c :: rest) with
    | some (e, date) => (date, (c :: rest).take e) :: extractAux fuel ((c :: rest).drop e)
    | none => extractAux fuel rest

/-- All summary-block matches of the document text. -/
def extractSummaries (t : Text) : List (Text × Text) := extractAux (t.length + 1) t

/-- Sort key of `summaries.sort(key=lambda x: x[0])`. -/
def dateLeB (a b : Text × Text) : Bool := strLe a.1 b.1

/-- Embedding of `read_summaries_doc` (src/activities.py lines
767-837): extract every summary block, sort by the captured date
ascending, and join with newlines; with no matches the full text is
returned as-is. -/
def read_summaries_doc (t : Text) : Text :=
  if extractSummaries t = [] then t
  else List.intercalate ['\n'] ((insSort dateLeB (extractSummaries t)).map (·.2))

/-- C2.  Read-and-normalize: when the document contains summary blocks,
`read_summaries_doc` returns exactly the extracted blocks re-joined
after a stable sort on their embedded dates; the sorted list is a
permutation of the extracted blocks (none duplicated or dropped) and
its date sequence is non-decreasing, so blocks inserted in arbitrary
order come out in chronological order. -/
theorem read_and_normalize (t : Text) (h : extractSummaries t ≠ []) :
    read_summaries_doc t
      = List.intercalate ['\n'] ((insSort dateLeB (extractSummaries t)).map (·.2))
    ∧ List.Pairwise (fun a b => strLe a.1 b.1 = true) (insSort dateLeB (extractSummaries t))
    ∧ (insSort dateLeB (extractSummaries t)).Perm (extractSummaries t) := by
  refine ⟨by simp [read_summaries_doc, h], ?_, insSort_perm dateLeB _⟩
  exact insSort_pairwise dateLeB
    (fun a b c hab hbc => strLe_trans a.1 b.1 c.1 hab hbc)
    (fun a b => strLe_total a.1 b.1)
    (extractSummaries t)

/-- Concrete March block for the C2 witness. -/
def blockMar : Text := "=== CALL SUMMARY: 2024-03-10 - B ===\nx\n===".data

/-- Concrete January block for the C2 witness. -/
def blockJan : Text := "=== CALL SUMMARY: 2024-01-05 - A ===\ny\n===".data

/-- Concrete document with the March block physically before the
January one. -/
def docC2 : Text := blockMar ++ ('\n' :: blockJan)

/-- Witness for C2: on a document holding a March block before a
January block, the theorem applies and the returned text lists the
January block first. -/
theorem read_and_normalize_witness :
    read_summaries_doc docC2
      = List.intercalate ['\n'] ((insSort dateLeB (extractSummaries docC2)).map (·.2))
    ∧ (insSort dateLeB (extractSummaries docC2)).Perm (extractSummaries docC2)
    ∧ read_summaries_doc docC2 = blockJan ++ ('\n' :: blockMar) :=
  ⟨(read_and_normalize docC2 (by decide)).1,
   (read_and_normalize docC2 (by decide)).2.2,
   by decide⟩

/- Replacing the Intelligence Section
(src/activities.py lines 953-1311).  The document is modelled as a list
of paragraphs, each a list of text runs; a paragraph's `startIndex` is
one plus the total length of everything before it and its `endIndex`
adds its own length, exactly the offsets the Docs API reports for a
body whose first character sits at index 1. -/

/-- Total character length of a paragraph's runs. -/
def paraLen (p : List Text) : Nat := (p.map List.length).sum

/-- Concatenated text of the whole paragraph/run tree. -/
def docText (doc : List (List Text)) : Text := (doc.map (fun p => p.flatten)).flatten

/-- The section start marker literal (src/activities.py line 989). -/
def startMarkerL : Text := "ACCOUNT INTELLIGENCE".data

/-- The section end marker literal (src/activities.py line 990). -/
def endMarkerL : Text := "END ACCOUNT INTELLIGENCE".data

/-- The inner run loop of the marker scan (src/activities.py lines
995-1005): the first run containing the start marker while none is
recorded stores the paragraph's `startIndex`; otherwise a run
containing the end marker once a start is recorded stores the
paragraph's `endIndex` and breaks out of the run loop only. -/
def scanRuns (runs : List Text) (s e : Option Nat) (pStart pEnd : Nat) :
    Option Nat × Option Nat :=
  match runs with
  | [] => (s, e)
  | r :: rest =>
    if containsSub startMarkerL r && s.isNone then
      scanRuns rest (some pStart) e pStart pEnd
    else if containsSub endMarkerL r && s.isSome then
      (s, some pEnd)
    else
      scanRuns rest s e pStart pEnd

/-- The outer paragraph loop of the marker scan, threading the
running offset.  The Python `break` leaves only the run loop, so later
paragraphs keep being scanned and may overwrite the recorded end. -/
def findMarkersGo : List (List Text) → Nat → Option Nat → Option Nat →
    Option Nat × Option Nat
  | [], _, s, e => (s, e)
  | p :: ps, off, s, e =>
    let res := scanRuns p s e off (off + paraLen p)
    findMarkersGo ps (off + paraLen p) res.1 res.2

/-- Marker scan over the whole document, starting at offset 1. -/
def findMarkers (doc : List (List Text)) : Option Nat × Option Nat :=
  findMarkersGo doc 1 none none

/-- Embedding of the section-replace part of `write_intelligence_to_doc`
(src/activities.py lines 988-1015 and 1292-1311): the new text is
always inserted at index 1 first; when both markers were found the old
section is deleted afterwards at its pre-insert offsets shifted forward
by `len(full_text)`; otherwise the operation is a plain prepend.  The
Boolean records whether a replace (deletion) happened. -/
def write_intelligence_to_doc (doc : List (List Text)) (newText : Text) : Text × Bool :=
  match findMarkers doc with
  | (some s, some e) =>
      (deleteRange (insertTextAt (docText doc) 1 newText)
        (s + newText.length) (e + newText.length), true)
  | _ => (insertTextAt (docText doc) 1 newText, false)

/-- The delete range issued by the replace path, if any
(src/activities.py lines 1296-1297). -/
def intelDeleteRange (doc : List (List Text)) (newText : Text) : Option (Nat × Nat) :=
  match findMarkers doc with
  | (some s, some e) => some (s + newText.length, e + newText.length)
  | _ => none

lemma insertTextAt_one (t new : Text) : insertTextAt t 1 new = new ++ t := by
  simp [insertTextAt]

/-- C3.  Section replace: with both markers found at pre-insert offsets
`s` (start paragraph's startIndex) and `e` (end paragraph's endIndex),
the new text is inserted at offset 1 before the old section is deleted,
the delete range is exactly `[s + len(new_text), e + len(new_text))`,
and the resulting text is the new section followed by the document with
the old section spliced out — the text before and after the old section
is preserved verbatim (no block duplicated or dropped) and the final
length is the old length minus the old section length plus the new
length. -/
theorem section_replace (doc : List (List Text)) (newText : Text) (s e : Nat)
    (hm : findMarkers doc = (some s, some e))
    (h1 : 1 ≤ s) (h2 : s ≤ e) (h3 : e ≤ (docText doc).length + 1) :
    (write_intelligence_to_doc doc newText).1
      = newText ++ (docText doc).take (s - 1) ++ (docText doc).drop (e - 1)
    ∧ (write_intelligence_to_doc doc newText).1.length
      = (docText doc).length + newText.length - (e - s)
    ∧ intelDeleteRange doc newText = some (s + newText.length, e + newText.length)
    ∧ (write_intelligence_to_doc doc newText).2 = true := by
  have hw : write_intelligence_to_doc doc newText
      = (deleteRange (insertTextAt (docText doc) 1 newText)
          (s + newText.length) (e + newText.length), true) := by
    simp [write_intelligence_to_doc, hm]
  have htext : (write_intelligence_to_doc doc newText).1
      = newText ++ (docText doc).take (s - 1) ++ (docText doc).drop (e - 1) := by
    rw [hw, insertTextAt_one]
    show (newText ++ docText doc).take (s + newText.length - 1)
        ++ (newText ++ docText doc).drop (e + newText.length - 1) = _
    have e1 : s + newText.length - 1 = newText.length + (s - 1) := by omega
    have e2 : e + newText.length - 1 = newText.length + (e - 1) := by omega
    rw [e1, e2, List.take_append, List.drop_append, List.append_assoc]
  refine ⟨htext, ?_, by simp [intelDeleteRange, hm], by rw [hw]⟩
  rw [htext]
  have hsteq : ((docText doc).take (s - 1)).length = s - 1 := by
    rw [List.length_take]
    exact min_eq_left (by omega)
  simp only [List.length_append, hsteq, List.length_drop]
  omega

/-- Concrete document with a complete Intelligence Section for the C3
witness: paragraph offsets give `s = 1` and `e = 53`. -/
def docC3 : List (List Text) :=
  [[("ACCOUNT INTELLIGENCE\n").data], [("stuff\n").data],
   [("END ACCOUNT INTELLIGENCE\n").data]]

/-- Witness for C3 at the concrete document and a concrete new
section. -/
theorem section_replace_witness :
    (write_intelligence_to_doc docC3 ("NEW\n".data)).1
      = ("NEW\n".data) ++ (docText docC3).take 0 ++ (docText docC3).drop 52
    ∧ (write_intelligence_to_doc docC3 ("NEW\n".data)).1.length
      = (docText docC3).length + ("NEW\n".data).length - 52 :=
  ⟨(section_replace docC3 ("NEW\n".data) 1 53 (by decide) (by decide) (by decide)
      (by decide)).1,
   (section_replace docC3 ("NEW\n".data) 1 53 (by decide) (by decide) (by decide)
      (by decide)).2.1⟩

/-- Concrete document whose start marker is present but whose end
marker never occurs. -/
def docC4 : List (List Text) := [[("ACCOUNT INTELLIGENCE\n").data], [("body\n").data]]

/-- C4 counterexample: on a document where the start marker is found
but the end marker never is, the operation does not report a failure
and does mutate the document — it falls back to a plain prepend of the
new text at offset 1, refuting the claim that it fails retryably
without mutation. -/
theorem malformed_marker_counterexample :
    findMarkers docC4 = (some 1, none)
    ∧ (write_intelligence_to_doc docC4 ("N".data)).1 ≠ docText docC4
    ∧ (write_intelligence_to_doc docC4 ("N".data)).1 = ("N".data) ++ docText docC4 := by
  refine ⟨by decide, by decide, by decide⟩

/-- C4 amended: when the start marker is found but the end marker is
never found after it, `write_intelligence_to_doc` treats the section as
absent: it performs a plain prepend of the new text at offset 1,
deletes nothing, and reports no failure. -/
theorem malformed_marker_prepends (doc : List (List Text)) (newText : Text) (s : Nat)
    (hm : findMarkers doc = (some s, none)) :
    write_intelligence_to_doc doc newText = (newText ++ docText doc, false)
    ∧ intelDeleteRange doc newText = none := by
  constructor
  · simp [write_intelligence_to_doc, hm, insertTextAt_one]
  · simp [intelDeleteRange, hm]

/-- Witness for the amended C4 at the concrete document. -/
theorem malformed_marker_prepends_witness :
    write_intelligence_to_doc docC4 ("M".data) = (("M".data) ++ docText docC4, false)
    ∧ intelDeleteRange docC4 ("M".data) = none :=
  malformed_marker_prepends docC4 ("M".data) 1 (by decide)

/- The markdown-formatting pass, Step 8 of `write_intelligence_to_doc`
(src/activities.py lines 1313-1420).  The code re-reads the document,
walks every run of every paragraph, collects bold-marker and
bullet-marker deletions, and executes them as one batch sorted by start
offset descending.  A re-read document presents one paragraph per
newline-terminated segment; we model each paragraph as a single run,
which is the state produced by the plain-text inserts of this
pipeline. -/

/-- Split document text into its newline-terminated paragraphs. -/
def paraSplitAux : Text → Text → List Text
  | [], acc => if acc = [] then [] else [acc.reverse]
  | c :: rest, acc =>
      if c = '\n' then (c :: acc).reverse :: paraSplitAux rest []
      else paraSplitAux rest (c :: acc)

/-- Paragraphs of a document text. -/
def paraSplit (t : Text) : List Text := paraSplitAux t []

/-- Does the text start with `**`? -/
def isStarStar (s : Text) : Bool :=
  match s with
  | '*' :: '*' :: _ => true
  | _ => false

/-- First index at which `**` starts, if any. -/
def findSS : Text → Option Nat
  | [] => none
  | c :: rest => if isStarStar (c :: rest) then some 0 else (findSS rest).map (· + 1)

/-- Does the run start with the markdown bullet marker `- `? -/
def isDashSpace (r : Text) : Bool :=
  match r with
  | '-' :: ' ' :: _ => true
  | _ => false

/-- Spans of `re.finditer(r'\*\*(.+?)\*\*', text)` within one run:
at an opening `**` the lazy content needs at least one character, so
the closing `**` is the first one at relative offset at least 3; the
scan resumes after each match, or one character on from a failed
position. -/
def boldScanAux : Nat → Text → Nat → List (Nat × Nat)
  | 0, _, _ => []
  | _ + 1, [], _ => []
  | fuel + 1, c :: rest, pos =>
    if isStarStar (c :: rest) then
      match findSS ((c :: rest).drop 3) with
      | some k =>
          (pos, pos + k + 5) :: boldScanAux fuel ((c :: rest).drop (k + 5)) (pos + k + 5)
      | none => boldScanAux fuel rest (pos + 1)
    else boldScanAux fuel rest (pos + 1)

/-- All bold-markup match spans of a run. -/
def boldScan (r : Text) : List (Nat × Nat) := boldScanAux (r.length + 1) r 0

/-- Deletions contributed by one run starting at document index `idx`:
per bold match the closing then the opening `**` pair, then the
two-character bullet marker when the run starts with `- `
(src/activities.py lines 1339-1383). -/
def runDeletes (r : Text) (idx : Nat) : List (Nat × Nat) :=
  ((boldScan r).map
      (fun m => [(idx + m.2 - 2, idx + m.2), (idx + m.1, idx + m.1 + 2)])).flatten
    ++ (if isDashSpace r then [(idx, idx + 2)] else [])

/-- Deletions of the whole document, walking the runs with the running
`current_index` that starts at 1. -/
def collectDeletes : List Text → Nat → List (Nat × Nat)
  | [], _ => []
  | p :: ps, idx => runDeletes p idx ++ collectDeletes ps (idx + p.length)

/-- Sort key of `delete_requests.sort(key=lambda x: x[1], reverse=True)`:
start offsets descending. -/
def deletesDesc (a b : Nat × Nat) : Bool := decide (b.1 ≤ a.1)

/-- Apply the batched deletions in order; each is a Docs
`deleteContentRange` against the current text. -/
def applyDeletes (t : Text) (ds : List (Nat × Nat)) : Text :=
  ds.foldl (fun u p => deleteRange u p.1 p.2) t

/-- The text effect of one markdown-formatting pass: collect all
deletions, sort by start descending, apply as one batch.  The bold and
bullet style requests do not change the text. -/
def formatPass (t : Text) : Text :=
  applyDeletes t (insSort deletesDesc (collectDeletes (paraSplit t) 1))

/-- C5 counterexample: on the document `"- - hello\n"` the first pass
deletes one leading `- `, leaving `"- hello\n"`, which still starts
with a bullet marker — the second application issues another deletion
and changes the text, refuting the claim that the second application is
always a no-op. -/
theorem formatting_pass_counterexample :
    formatPass (formatPass ("- - hello\n".data)) ≠ formatPass ("- - hello\n".data)
    ∧ formatPass ("- - hello\n".data) = ("- hello\n").data := by
  refine ⟨by decide, by decide⟩

/-- C5 amended: the second application of the formatting pass is a
no-op whenever the first application's output carries no remaining
markup (no bold match and no paragraph-leading `- `, i.e. it
contributes no deletions); this holds for ordinary documents but not
universally, since e.g. a paragraph starting `- - ` still starts with
`- ` after one pass. -/
theorem formatting_pass_amended (t : Text)
    (h : collectDeletes (paraSplit (formatPass t)) 1 = []) :
    formatPass (formatPass t) = formatPass t := by
  show applyDeletes (formatPass t)
      (insSort deletesDesc (collectDeletes (paraSplit (formatPass t)) 1)) = formatPass t
  rw [h]
  rfl

/-- Witness for the amended C5: after one pass over `"**a** w\n"` no
markup remains and the second pass is a no-op. -/
theorem formatting_pass_amended_witness :
    formatPass (formatPass ("**a** w\n".data)) = formatPass ("**a** w\n".data)
    ∧ formatPass ("**a** w\n".data) = ("a w\n").data :=
  ⟨formatting_pass_amended ("**a** w\n".data) (by decide), by decide⟩

/- The synthesizer's response handling (src/activities.py lines
935-950).  The JSON library is external and appears as the `jparse`
parameter; a successful parse returns the parsed value, a failure
raises, carrying the text it tried to parse. -/

/-- First index of character `c`, Python `str.find` without the `-1`. -/
def charFind (c : Char) : Text → Option Nat
  | [] => none
  | x :: xs => if x = c then some 0 else (charFind c xs).map (· + 1)

/-- Last index of character `c`, Python `str.rfind` without the `-1`. -/
def charRFind (c : Char) : Text → Option Nat
  | [] => none
  | x :: xs =>
      match charRFind c xs with
      | some i => some (i + 1)
      | none => if x = c then some 0 else none

/-- Python `str.find` for a single character: index or `-1`. -/
def pyFindI (c : Char) (s : Text) : Int :=
  match charFind c s with
  | some i => Int.ofNat i
  | none => -1

/-- Python `str.rfind` for a single character: index or `-1`. -/
def pyRFindI (c : Char) (s : Text) : Int :=
  match charRFind c s with
  | some i => Int.ofNat i
  | none => -1

/-- Python slice-bound normalization: negative indices count from the
end, and bounds clamp to `[0, len]`. -/
def pyIndexNorm (s : Text) (i : Int) : Nat :=
  if i < 0 then (max ((s.length : Int) + i) 0).toNat
  else (min i ((s.length : Int))).toNat

/-- Python `s[a:b]`. -/
def pySlice (s : Text) (a b : Int) : Text :=
  (s.take (pyIndexNorm s b)).drop (pyIndexNorm s a)

/-- The markdown code-fence opener checked by
`response_text.startswith("```")`. -/
def fenceLit : Text := "```".data

/-- The response preprocessing of `synthesize_intelligence`
(src/activities.py lines 935-941): strip the raw text; only when the
result starts with a code fence, slice from the first `\x7b` through
the last `\x7d`. -/
def preprocessResponse (resp : Text) : Text :=
  if fenceLit.isPrefixOf (pyStrip resp) then
    pySlice (pyStrip resp) (pyFindI '\x7b' (pyStrip resp))
      (pyRFindI '\x7d' (pyStrip resp) + 1)
  else pyStrip resp

/-- Embedding of the parse step of `synthesize_intelligence`
(src/activities.py lines 943-950): parse the preprocessed text with the
external JSON parser; on failure raise, carrying the offending
payload, instead of returning any fallback brief. -/
def synthesize_intelligence {J : Type} (jparse : Text → Option J) (resp : Text) :
    Except Text J :=
  match jparse (preprocessResponse resp) with
  | some j => Except.ok j
  | none => Except.error (preprocessResponse resp)

/-- Modelled from the spec: the spec's described preprocessing, which
strips any text before the first `\x7b` and after the last `\x7d` of
every response (no code-fence condition), used as comparator. -/
def specStripBraces (t : Text) : Text :=
  match charFind '\x7b' t, charRFind '\x7d' t with
  | some i, some j => (t.take (j + 1)).drop i
  | _, _ => t

/-- C9 counterexample: the response `"x\x7b\x7d"` does not start with a
code fence, so the code parses it as-is, while the claim demands the
leading `x` be stripped before parsing. -/
theorem synthesizer_strip_counterexample :
    preprocessResponse ("x\x7b\x7d".data) = ("x\x7b\x7d".data)
    ∧ specStripBraces ("x\x7b\x7d".data) = ("\x7b\x7d".data)
    ∧ preprocessResponse ("x\x7b\x7d".data) ≠ specStripBraces ("x\x7b\x7d".data) := by
  refine ⟨by decide, by decide, by decide⟩

lemma charFind_lt_length (c : Char) :
    ∀ (t : Text) (i : Nat), charFind c t = some i → i < t.length := by
  intro t
  induction t with
  | nil => intro i h; cases h
  | cons x xs ih =>
    intro i h
    simp only [charFind] at h
    by_cases hx : x = c
    · rw [if_pos hx] at h
      cases h
      simp
    · rw [if_neg hx] at h
      cases hfx : charFind c xs with
      | none => rw [hfx] at h; cases h
      | some i' =>
        rw [hfx] at h
        have hi : i = i' + 1 := by
          cases h
          rfl
        subst hi
        have := ih i' hfx
        simp
        omega

lemma charRFind_lt_length (c : Char) :
    ∀ (t : Text) (i : Nat), charRFind c t = some i → i < t.length := by
  intro t
  induction t with
  | nil => intro i h; cases h
  | cons x xs ih =>
    intro i h
    simp only [charRFind] at h
    cases hfx : charRFind c xs with
    | some i' =>
      rw [hfx] at h
      have hi : i = i' + 1 := by
        cases h
        rfl
      subst hi
      have := ih i' hfx
      simp
      omega
    | none =>
      rw [hfx] at h
      by_cases hx : x = c
      · rw [if_pos hx] at h
        cases h
        simp
      · rw [if_neg hx] at h
        cases h

lemma charFind_isSome_of_mem (c : Char) :
    ∀ t : Text, c ∈ t → ∃ i, charFind c t = some i := by
  intro t
  induction t with
  | nil => intro h; cases h
  | cons x xs ih =>
    intro h
    simp only [charFind]
    by_cases hx : x = c
    · exact ⟨0, by rw [if_pos hx]⟩
    · have hmem : c ∈ xs := by
        rcases List.mem_cons.mp h with h1 | h1
        · exact absurd h1.symm hx
        · exact h1
      rcases ih hmem with ⟨i, hi⟩
      exact ⟨i + 1, by rw [if_neg hx, hi]; rfl⟩

lemma charRFind_isSome_of_mem (c : Char) :
    ∀ t : Text, c ∈ t → ∃ i, charRFind c t = some i := by
  intro t
  induction t with
  | nil => intro h; cases h
  | cons x xs ih =>
    intro h
    simp only [charRFind]
    by_cases hmem : c ∈ xs
    · rcases ih hmem with ⟨i, hi⟩
      exact ⟨i + 1, by rw [hi]⟩
    · have hx : x = c := by
        rcases List.mem_cons.mp h with h1 | h1
        · exact h1.symm
        · exact absurd h1 hmem
      cases hfx : charRFind c xs with
      | some i => exact ⟨i + 1, rfl⟩
      | none => exact ⟨0, by rw [if_pos hx]⟩

lemma pyIndexNorm_ofNat (s : Text) (k : Nat) (hk : k ≤ s.length) :
    pyIndexNorm s (Int.ofNat k) = k := by
  unfold pyIndexNorm
  simp only [Int.ofNat_eq_natCast]
  rw [if_neg (by omega)]
  rw [min_eq_left (by exact_mod_cast hk)]
  simp

/-- C9 amended: `synthesize_intelligence` strips text before the first
`\x7b` and after the last `\x7d` only when the stripped response starts
with a code fence (in which case it coincides with the spec's described
strip whenever both braces are present); otherwise the stripped
response is parsed as-is; and a parse failure raises an error carrying
the offending payload, never returning a fallback brief. -/
theorem synthesizer_parse_contract {J : Type} (jparse : Text → Option J) (resp : Text) :
    (fenceLit.isPrefixOf (pyStrip resp) = false →
        preprocessResponse resp = pyStrip resp)
    ∧ (fenceLit.isPrefixOf (pyStrip resp) = true →
        '\x7b' ∈ pyStrip resp → '\x7d' ∈ pyStrip resp →
        preprocessResponse resp = specStripBraces (pyStrip resp))
    ∧ (jparse (preprocessResponse resp) = none →
        synthesize_intelligence jparse resp = Except.error (preprocessResponse resp))
    ∧ (∀ j, jparse (preprocessResponse resp) = some j →
        synthesize_intelligence jparse resp = Except.ok j) := by
  refine ⟨?_, ?_, ?_, ?_⟩
  · intro h
    simp [preprocessResponse, h]
  · intro hf hb1 hb2
    rcases charFind_isSome_of_mem '\x7b' (pyStrip resp) hb1 with ⟨i, hi⟩
    rcases charRFind_isSome_of_mem '\x7d' (pyStrip resp) hb2 with ⟨j, hj⟩
    have hil := charFind_lt_length '\x7b' (pyStrip resp) i hi
    have hjl := charRFind_lt_length '\x7d' (pyStrip resp) j hj
    unfold preprocessResponse
    rw [if_pos hf]
    simp only [pyFindI, pyRFindI, hi, hj]
    have hb : (Int.ofNat j) + 1 = Int.ofNat (j + 1) := by
      simp only [Int.ofNat_eq_natCast]
      omega
    rw [hb]
    unfold pySlice
    rw [pyIndexNorm_ofNat (pyStrip resp) i (le_of_lt hil),
      pyIndexNorm_ofNat (pyStrip resp) (j + 1) (by omega)]
    simp [specStripBraces, hi, hj]
  · intro h
    simp [synthesize_intelligence, h]
  · intro j h
    simp [synthesize_intelligence, h]

/-- Fenced response used by the C9 witness. -/
def respC9W : Text := "```q\x7ba\x7d```".data

/-- Concrete JSON parser used by the C9 witness. -/
def jparseW : Text → Option Nat :=
  fun t => if t = ("\x7ba\x7d".data) then some 7 else none

/-- Witness for the amended C9: a fenced response is stripped to its
brace span and parses; an unfenced unparseable response raises with the
payload. -/
theorem synthesizer_parse_contract_witness :
    preprocessResponse respC9W = specStripBraces (pyStrip respC9W)
    ∧ synthesize_intelligence jparseW respC9W = Except.ok 7
    ∧ synthesize_intelligence jparseW ("plain text".data)
        = Except.error (preprocessResponse ("plain text".data)) :=
  ⟨(synthesizer_parse_contract jparseW respC9W).2.1 (by decide) (by decide) (by decide),
   (synthesizer_parse_contract jparseW respC9W).2.2.2 7 (by decide),
   (synthesizer_parse_contract jparseW ("plain text".data)).2.2.1 (by decide)⟩

end ActivitiesModel
